import Mathlib

/-!
Verification of the sweep driver `sweep.py` (a benchmarking harness that
invokes an external throughput-measuring executable over a grid of
part sizes and connection counts and prints a tab-separated table).

Shallow embedding notes:
* Python exceptions are modelled with `Except String`; the carried string is
  `str(e)` as Python would produce it.
* The external process call `subprocess.check_output` is an opaque parameter
  `exec : List String → Except String String` (ok = decoded stdout of a
  zero-exit run, error = the stringified `CalledProcessError` or other
  invocation failure).
* Python floats are idealised as exact rationals `ℚ`.  All throughput
  readings are decimal literals `d+.d+`; float rounding is monotone, so the
  maximum commutes with rounding and the selection of the maximum reading is
  unaffected by this idealisation.
* `argparse` is not modelled; `main` starts from the post-parse boundary:
  `args.part_size : Option (List String)` (`none` when the option was
  omitted, as `argparse` then stores `None`), likewise
  `args.connections_per_vip`, and `cmd : List String` the leftover tokens
  returned by `parse_known_args`.
* Printing is modelled as the ordered list of emitted chunks, one `Out`
  event per executed `print`/`sys.stdout.write`; `render` is the f-string
  formatting, parametrised by `floatStr : ℚ → String` standing for Python's
  `str` on floats.
-/

/-- ASCII whitespace accepted (and stripped) by Python's `int(str)`. -/
def isPySpace (c : Char) : Bool :=
  c = ' ' || c = '\t' || c = '\n' || c = '\x0d' || c = '\x0b' || c = '\x0c'

/-- Strip leading and trailing whitespace, as `int()` does before parsing. -/
def stripSpaces (l : List Char) : List Char :=
  ((l.dropWhile isPySpace).reverse.dropWhile isPySpace).reverse

/-- After the first digit of a Python integer literal: digits, with single
underscores allowed only between digits. -/
def validDigitsTail : List Char → Bool
  | [] => true
  | c :: rest =>
    if c = '_' then
      match rest with
      | [] => false
      | c2 :: rest2 => c2.isDigit && validDigitsTail rest2
    else c.isDigit && validDigitsTail rest

/-- A nonempty digit string with optional single underscores between digits:
the digit-part grammar of Python's `int(str)`. -/
def validDigits (l : List Char) : Bool :=
  match l with
  | [] => false
  | c :: rest => c.isDigit && validDigitsTail rest

/-- Numeric value of a digit string (most significant first). -/
def digitsVal (l : List Char) : Nat :=
  l.foldl (fun a c => 10 * a + (c.toNat - 48)) 0

/-- Value of a digit string after discarding underscores. -/
def uVal (l : List Char) : Int :=
  (digitsVal (l.filter (fun c => c != '_')) : Int)

/-- Model of Python's `int(s)` on a string: strip whitespace, optional single
sign, then digits (underscores allowed between digits).  `none` models the
`ValueError` raise. -/
def pyIntParse (s : List Char) : Option Int :=
  match stripSpaces s with
  | [] => none
  | c :: rest =>
    if c = '+' then (if validDigits rest then some (uVal rest) else none)
    else if c = '-' then (if validDigits rest then some (-(uVal rest)) else none)
    else if validDigits (c :: rest) then some (uVal (c :: rest)) else none

/-- Python's `int(s)` with the `ValueError` message it raises. -/
def pyInt (l : List Char) : Except String Int :=
  match pyIntParse l with
  | some n => Except.ok n
  | none =>
    Except.error ("invalid literal for int() with base 10: \x27" ++ String.mk l ++ "\x27")

/-- Function `expand_size` from sweep.py:
`if size.endswith("M"): return int(size[:-1]) * 1024 * 1024`
`elif size.endswith("K"): return int(size[:-1]) * 1024`
`else: return int(size)`.
A single-character `endswith` test is the last-character test; `size[:-1]`
is `dropLast`. -/
def expand_size (size : String) : Except String Int :=
  if size.data.getLast? = some 'M' then
    Except.map (fun n => n * 1024 * 1024) (pyInt size.data.dropLast)
  else if size.data.getLast? = some 'K' then
    Except.map (fun n => n * 1024) (pyInt size.data.dropLast)
  else pyInt size.data

/-- The claim's notion "the token after stripping at most one trailing
uppercase M or K", to be compared with what `expand_size` feeds to `int`. -/
def stripSuffixMK (l : List Char) : List Char :=
  if l.getLast? = some 'M' then l.dropLast
  else if l.getLast? = some 'K' then l.dropLast
  else l

/-- One attempted match of `THROUGHPUT_RE = " (\d+\.\d+)MiB/s"` at the head
of `l`: a space, one or more digits, a dot, one or more digits, then the
literal `MiB/s`.  Returns the captured group and the remainder after the
match.  Maximal digit runs coincide with the regex's greedy `\d+` here,
since a digit can neither begin `.`… nor `MiB/s`. -/
def matchAt (l : List Char) : Option (List Char × List Char) :=
  match l with
  | [] => none
  | c :: r0 =>
    if c = ' ' then
      if r0.takeWhile Char.isDigit = [] then none
      else
        match r0.dropWhile Char.isDigit with
        | [] => none
        | c1 :: r2 =>
          if c1 = '.' then
            if r2.takeWhile Char.isDigit = [] then none
            else if (r2.dropWhile Char.isDigit).take 5 = ['M', 'i', 'B', '/', 's'] then
              some (r0.takeWhile Char.isDigit ++ '.' :: r2.takeWhile Char.isDigit,
                    (r2.dropWhile Char.isDigit).drop 5)
            else none
          else none
    else none

/-- Model of `re.findall` for the throughput pattern: scan left to right, on a match
emit the capture and continue after the match, otherwise advance one
character.  Fuel-driven for structural recursion; `length l` fuel is exact
because each step consumes at least one character. -/
def findallFuel : Nat → List Char → List (List Char)
  | 0, _ => []
  | _ + 1, [] => []
  | fuel + 1, c :: cs =>
    match matchAt (c :: cs) with
    | some (cap, rest) => cap :: findallFuel fuel rest
    | none => findallFuel fuel cs

/-- The call `THROUGHPUT_RE.findall(out)`. -/
def findall (out : String) : List (List Char) :=
  findallFuel out.data.length out.data

/-- Model of Python `float` on a captured reading `d+.d+`, as an exact
rational: the digits before the dot, plus the digits after it scaled down
by their count. -/
def pyFloat (s : List Char) : ℚ :=
  if s.dropWhile (fun c => c != '.') = [] then
    (digitsVal s : ℚ)
  else
    (digitsVal (s.takeWhile (fun c => c != '.')) : ℚ)
      + (digitsVal (s.dropWhile (fun c => c != '.')).tail : ℚ)
        / (10 : ℚ) ^ (s.dropWhile (fun c => c != '.')).tail.length

/-- Lines 16–21 of `run_once` after the process call: find all throughput
readings, raise `No throughput found` on zero matches, else take the
maximum of the parsed floats. -/
def parse_throughput (res : Except String String) : Except String ℚ :=
  match res with
  | Except.error e => Except.error e
  | Except.ok out =>
    match findall out with
    | [] => Except.error "No throughput found"
    | x :: xs => Except.ok (List.foldl max (pyFloat x) (xs.map pyFloat))

/-- Line 15 of `run_once`: `cmd = cmd + ["--part-size", str(part_size),
"--connections-per-vip", str(connections_per_vip)]`. -/
def run_once_cmd (cmd : List String) (part_size : Int) (connections_per_vip : Int) :
    List String :=
  cmd ++ ["--part-size", toString part_size,
          "--connections-per-vip", toString connections_per_vip]

/-- Function `run_once` from sweep.py, with the process call as parameter `ex`. -/
def run_once (ex : List String → Except String String) (cmd : List String)
    (part_size : Int) (connections_per_vip : Int) : Except String ℚ :=
  parse_throughput (ex (run_once_cmd cmd part_size connections_per_vip))

/-- One output chunk of the sweep: each constructor is one executed
`print`/`sys.stdout.write` of `run_sweep`. -/
inductive Out : Type
  | header : Out
  | trialStart (token : String) (conn : Int) : Out
  | success (q : ℚ) : Out
  | failed (msg : String) : Out
deriving DecidableEq

/-- The f-string each `Out` chunk was printed with (`floatStr` stands for
Python's `str` on a float). -/
def render (floatStr : ℚ → String) : Out → String
  | Out.header => "part size\tconnections per vip\tmax throughput\n"
  | Out.trialStart t c => t ++ "\t" ++ toString c ++ "\t"
  | Out.success q => floatStr q ++ "\n"
  | Out.failed e => "failed (" ++ e ++ ")\n"

/-- The body of the `try` on line 38: `run_once(cmd, expand_size(part_size),
connections_per_vip)` — `expand_size` is evaluated inside the `try`, so its
exception flows to the same handler. -/
def trialResult (ex : List String → Except String String) (cmd : List String)
    (t : String) (c : Int) : Except String ℚ :=
  Except.bind (expand_size t) (fun n => run_once ex cmd n c)

/-- One iteration of the inner loop of `run_sweep` (lines 35–41): write the
row prefix, then print either the throughput or the `failed (…)` marker. -/
def trial (ex : List String → Except String String) (cmd : List String)
    (t : String) (c : Int) : List Out :=
  Out.trialStart t c ::
    match trialResult ex cmd t c with
    | Except.ok q => [Out.success q]
    | Except.error e => [Out.failed e]

/-- Message of the `TypeError` raised by iterating `None` (an omitted `nargs="+"`
option is stored as `None` by argparse). -/
def noneTypeErr : String := "\x27NoneType\x27 object is not iterable"

/-- Function `run_sweep` from sweep.py.  Result: the ordered output chunks, and the
unhandled exception if one escapes.  Iterating a `none` option raises
`TypeError` at the loop head: before any write for the outer loop, before
the first row prefix for the inner loop (the write sits inside the inner
loop). -/
def run_sweep (ex : List String → Except String String)
    (part_size : Option (List String)) (connections_per_vip : Option (List Int))
    (cmd : List String) : List Out × Option String :=
  match part_size with
  | none => ([Out.header], some noneTypeErr)
  | some ps =>
    match connections_per_vip with
    | none => ([Out.header], if ps = [] then none else some noneTypeErr)
    | some cs =>
      (Out.header :: ps.flatMap (fun t => cs.flatMap (fun c => trial ex cmd t c)), none)

/-- Function `main` from sweep.py (renamed: `main` is reserved by Lean), from the
post-`parse_known_args` boundary:
`if cmd[0] != "--": raise Exception("missing remaining args")` —
an empty leftover list raises `IndexError` at `cmd[0]` — then
`run_sweep(args, cmd[1:])`. -/
def sweep_main (ex : List String → Except String String)
    (part_size : Option (List String)) (connections_per_vip : Option (List Int))
    (cmd : List String) : List Out × Option String :=
  match cmd with
  | [] => ([], some "IndexError: list index out of range")
  | c0 :: rest =>
    if c0 = "--" then run_sweep ex part_size connections_per_vip rest
    else ([], some "missing remaining args")

/-- The list of commands the sweep hands to the process runner, in order:
one freshly built `run_once_cmd` per trial whose size token expands
(a token whose expansion raises never reaches the process call). -/
def run_sweep_calls (ps : List String) (cs : List Int) (cmd : List String) :
    List (List String) :=
  ps.flatMap (fun t => cs.flatMap (fun c =>
    match expand_size t with
    | Except.ok n => [run_once_cmd cmd n c]
    | Except.error _ => []))

/-- A substring of `l` matched by `THROUGHPUT_RE`: somewhere in `l` there is
a space, a nonempty digit run, a dot, a nonempty digit run, then `MiB/s`. -/
def hasThroughputMatch (l : List Char) : Prop :=
  ∃ pre d1 d2 post, d1 ≠ [] ∧ d2 ≠ [] ∧
    (∀ c ∈ d1, Char.isDigit c = true) ∧ (∀ c ∈ d2, Char.isDigit c = true) ∧
    l = pre ++ ' ' :: d1 ++ '.' :: d2 ++ 'M' :: 'i' :: 'B' :: '/' :: 's' :: post

/-- A process runner that always fails (models a benchmark binary whose
invocation raises, e.g. non-zero exit). -/
def exBoom : List String → Except String String := fun _ => Except.error "boom"

/-- A process runner that always prints one throughput reading. -/
def exOne : List String → Except String String := fun _ => Except.ok " 1.00MiB/s"

/-- A process runner printing three readings; the maximum is the middle one. -/
def exThree : List String → Except String String :=
  fun _ => Except.ok " 1.0MiB/s 3.0MiB/s 2.0MiB/s"

/-- Two runners that agree on every 5-token command (the per-trial commands
below) and disagree elsewhere. -/
def exA : List String → Except String String :=
  fun l => if l.length = 5 then Except.ok " 1.0MiB/s" else Except.error "offA"

/-- See `exA`. -/
def exB : List String → Except String String :=
  fun l => if l.length = 5 then Except.ok " 1.0MiB/s" else Except.error "offB"

/-! ### Helper lemmas about the throughput scanner -/

theorem takeWhile_sep (p : Char → Bool) (d : List Char) (x : Char) (z : List Char)
    (hd : ∀ c ∈ d, p c = true) (hx : p x = false) :
    (d ++ x :: z).takeWhile p = d ∧ (d ++ x :: z).dropWhile p = x :: z := by
  induction d with
  | nil => simp [List.takeWhile_cons, List.dropWhile_cons, hx]
  | cons a d ih =>
    have ha : p a = true := hd a (by simp)
    have h' := ih (fun c hc => hd c (by simp [hc]))
    simp [List.takeWhile_cons, List.dropWhile_cons, ha, h'.1, h'.2]

theorem matchAt_eq_some {l cap rest : List Char} (h : matchAt l = some (cap, rest)) :
    ∃ d1 d2, d1 ≠ [] ∧ d2 ≠ [] ∧ (∀ c ∈ d1, Char.isDigit c = true) ∧
      (∀ c ∈ d2, Char.isDigit c = true) ∧ cap = d1 ++ '.' :: d2 ∧
      l = ' ' :: d1 ++ '.' :: d2 ++ 'M' :: 'i' :: 'B' :: '/' :: 's' :: rest := by
  match l with
  | [] => simp [matchAt] at h
  | c :: r0 =>
    simp only [matchAt] at h
    by_cases hc : c = ' '
    swap
    · rw [if_neg hc] at h; simp at h
    rw [if_pos hc] at h
    by_cases h1 : r0.takeWhile Char.isDigit = []
    · rw [if_pos h1] at h; simp at h
    rw [if_neg h1] at h
    cases heq : r0.dropWhile Char.isDigit with
    | nil => rw [heq] at h; simp at h
    | cons c1 r2 =>
      rw [heq] at h
      dsimp only at h
      by_cases hc1 : c1 = '.'
      swap
      · rw [if_neg hc1] at h; simp at h
      rw [if_pos hc1] at h
      by_cases h2 : r2.takeWhile Char.isDigit = []
      · rw [if_pos h2] at h; simp at h
      rw [if_neg h2] at h
      by_cases h5 : (r2.dropWhile Char.isDigit).take 5 = ['M', 'i', 'B', '/', 's']
      swap
      · rw [if_neg h5] at h; simp at h
      rw [if_pos h5] at h
      simp only [Option.some.injEq, Prod.mk.injEq] at h
      obtain ⟨hcap, hrest⟩ := h
      refine ⟨r0.takeWhile Char.isDigit, r2.takeWhile Char.isDigit, h1, h2,
        (fun x hx => List.mem_takeWhile_imp hx), (fun x hx => List.mem_takeWhile_imp hx),
        hcap.symm, ?_⟩
      subst hc hc1
      have hr0 : r0 = r0.takeWhile Char.isDigit ++ r0.dropWhile Char.isDigit :=
        (List.takeWhile_append_dropWhile Char.isDigit r0).symm
      have hr2 : r2 = r2.takeWhile Char.isDigit ++ r2.dropWhile Char.isDigit :=
        (List.takeWhile_append_dropWhile Char.isDigit r2).symm
      have hd5 : r2.dropWhile Char.isDigit =
          ['M', 'i', 'B', '/', 's'] ++ (r2.dropWhile Char.isDigit).drop 5 := by
        conv_lhs => rw [(List.take_append_drop 5 (r2.dropWhile Char.isDigit)).symm]
        rw [h5]
      rw [← hrest]
      conv_lhs => rw [hr0, heq]
      conv_lhs => rw [hr2, hd5]
      simp

theorem matchAt_complete (d1 d2 post : List Char)
    (h1 : d1 ≠ []) (h2 : d2 ≠ [])
    (hd1 : ∀ c ∈ d1, Char.isDigit c = true) (hd2 : ∀ c ∈ d2, Char.isDigit c = true) :
    matchAt (' ' :: d1 ++ '.' :: d2 ++ 'M' :: 'i' :: 'B' :: '/' :: 's' :: post) =
      some (d1 ++ '.' :: d2, post) := by
  have hdot : Char.isDigit '.' = false := by decide
  have hM : Char.isDigit 'M' = false := by decide
  have hw1 := takeWhile_sep Char.isDigit d1 '.' (d2 ++ 'M' :: 'i' :: 'B' :: '/' :: 's' :: post)
    hd1 hdot
  have hw2 := takeWhile_sep Char.isDigit d2 'M' ('i' :: 'B' :: '/' :: 's' :: post) hd2 hM
  simp [matchAt, hw1.1, hw1.2, hw2.1, hw2.2, h1, h2]

theorem matchAt_rest_length {l cap rest : List Char} (h : matchAt l = some (cap, rest)) :
    rest.length + 9 ≤ l.length := by
  obtain ⟨d1, d2, h1, h2, _, _, _, hl⟩ := matchAt_eq_some h
  have hd1 : 0 < d1.length := List.length_pos.mpr h1
  have hd2 : 0 < d2.length := List.length_pos.mpr h2
  subst hl
  simp [List.length_append]
  omega

theorem hasThroughputMatch_of_matchAt {l cap rest : List Char}
    (h : matchAt l = some (cap, rest)) : hasThroughputMatch l := by
  obtain ⟨d1, d2, h1, h2, hd1, hd2, _, hl⟩ := matchAt_eq_some h
  exact ⟨[], d1, d2, rest, h1, h2, hd1, hd2, by simpa using hl⟩

theorem not_hasThroughputMatch_nil : ¬ hasThroughputMatch [] := by
  rintro ⟨pre, d1, d2, post, h1, h2, hd1, hd2, hl⟩
  cases pre <;> simp at hl

theorem hasThroughputMatch_cons_iff {c : Char} {cs : List Char}
    (h : matchAt (c :: cs) = none) :
    hasThroughputMatch (c :: cs) ↔ hasThroughputMatch cs := by
  constructor
  · rintro ⟨pre, d1, d2, post, h1, h2, hd1, hd2, hl⟩
    match pre, hl with
    | [], hl =>
      exfalso
      have hc : c = ' ' ∧ cs = d1 ++ '.' :: d2 ++ 'M' :: 'i' :: 'B' :: '/' :: 's' :: post := by
        constructor
        · have := congrArg (List.head?) hl
          simpa using this
        · have := congrArg (List.tail) hl
          simpa using this
      rw [hc.1, hc.2] at h
      rw [show (' ' :: (d1 ++ '.' :: d2 ++ 'M' :: 'i' :: 'B' :: '/' :: 's' :: post)) =
          ' ' :: d1 ++ '.' :: d2 ++ 'M' :: 'i' :: 'B' :: '/' :: 's' :: post from rfl] at h
      rw [matchAt_complete d1 d2 post h1 h2 hd1 hd2] at h
      simp at h
    | p0 :: pre', hl =>
      have hcs : cs = pre' ++ ' ' :: d1 ++ '.' :: d2 ++ 'M' :: 'i' :: 'B' :: '/' :: 's' :: post := by
        have := congrArg (List.tail) hl
        simpa using this
      exact ⟨pre', d1, d2, post, h1, h2, hd1, hd2, hcs⟩
  · rintro ⟨pre, d1, d2, post, h1, h2, hd1, hd2, hl⟩
    exact ⟨c :: pre, d1, d2, post, h1, h2, hd1, hd2, by simp [hl]⟩

theorem findallFuel_eq_nil_iff :
    ∀ (fuel : Nat) (l : List Char), l.length ≤ fuel →
      (findallFuel fuel l = [] ↔ ¬ hasThroughputMatch l) := by
  intro fuel
  induction fuel with
  | zero =>
    intro l hl
    have : l = [] := List.eq_nil_of_length_eq_zero (Nat.le_zero.mp hl)
    subst this
    simp [findallFuel, not_hasThroughputMatch_nil]
  | succ fuel ih =>
    intro l hl
    match l with
    | [] => simp [findallFuel, not_hasThroughputMatch_nil]
    | c :: cs =>
      cases h : matchAt (c :: cs) with
      | some v =>
        obtain ⟨cap, rest⟩ := v
        have hm : hasThroughputMatch (c :: cs) := hasThroughputMatch_of_matchAt h
        simp [findallFuel, h, hm]
      | none =>
        have hcs : cs.length ≤ fuel := by
          have := hl
          simp at this
          omega
        rw [show findallFuel (fuel + 1) (c :: cs) = findallFuel fuel cs by
          simp [findallFuel, h]]
        rw [ih cs hcs, hasThroughputMatch_cons_iff h]

theorem findall_eq_nil_iff (out : String) :
    findall out = [] ↔ ¬ hasThroughputMatch out.data := by
  exact findallFuel_eq_nil_iff out.data.length out.data (Nat.le_refl _)

/-! ### Maximum over a foldl, as Python's `max` computes it -/

theorem le_foldl_max (b : ℚ) (l : List ℚ) : b ≤ List.foldl max b l := by
  induction l generalizing b with
  | nil => simp
  | cons a l ih =>
    calc b ≤ max b a := le_max_left b a
    _ ≤ List.foldl max (max b a) l := ih (max b a)

theorem foldl_max_le (b : ℚ) (l : List ℚ) : ∀ x ∈ l, x ≤ List.foldl max b l := by
  induction l generalizing b with
  | nil => simp
  | cons a l ih =>
    intro x hx
    rcases List.mem_cons.mp hx with rfl | hx
    · calc x ≤ max b x := le_max_right b x
      _ ≤ List.foldl max (max b x) l := le_foldl_max (max b x) l
    · exact ih (max b a) x hx

theorem foldl_max_mem (b : ℚ) (l : List ℚ) : List.foldl max b l ∈ b :: l := by
  induction l generalizing b with
  | nil => simp
  | cons a l ih =>
    have h := ih (max b a)
    rw [List.foldl_cons]
    rcases List.mem_cons.mp h with hm | hm
    · rw [hm]
      rcases max_choice b a with he | he
      · rw [he]; exact List.mem_cons_self _ _
      · rw [he]; exact List.mem_cons_of_mem _ (List.mem_cons_self _ _)
    · exact List.mem_cons_of_mem _ (List.mem_cons_of_mem _ hm)

/-! ### Lemmas about the integer parser -/

theorem validDigitsTail_digits (l : List Char) (h : ∀ c ∈ l, Char.isDigit c = true) :
    validDigitsTail l = true := by
  induction l with
  | nil => rfl
  | cons a l ih =>
    have ha := h a (List.mem_cons_self a l)
    have hne : a ≠ '_' := by
      intro e; rw [e] at ha; exact absurd ha (by decide)
    cases l with
    | nil =>
      have hstep : validDigitsTail [a] = (if a = '_' then false else a.isDigit && true) := rfl
      rw [hstep, if_neg hne, ha]
      rfl
    | cons b l2 =>
      have hstep : validDigitsTail (a :: b :: l2) =
          (if a = '_' then b.isDigit && validDigitsTail l2
           else a.isDigit && validDigitsTail (b :: l2)) := rfl
      rw [hstep, if_neg hne, ha, ih (fun c hc => h c (List.mem_cons_of_mem _ hc))]
      rfl

theorem validDigits_digits (l : List Char) (hne : l ≠ [])
    (h : ∀ c ∈ l, Char.isDigit c = true) : validDigits l = true := by
  cases l with
  | nil => exact absurd rfl hne
  | cons a l =>
    simp [validDigits, h a (List.mem_cons_self a l),
      validDigitsTail_digits l (fun c hc => h c (List.mem_cons_of_mem _ hc))]

theorem not_space_of_digit {c : Char} (h : Char.isDigit c = true) : isPySpace c = false := by
  cases hb : isPySpace c
  · rfl
  · exfalso
    simp only [isPySpace, Bool.or_eq_true, decide_eq_true_eq] at hb
    rcases hb with ((((e | e) | e) | e) | e) | e <;> rw [e] at h <;> exact absurd h (by decide)

theorem dropWhile_eq_self_of (p : Char → Bool) (l : List Char)
    (h : ∀ c ∈ l, p c = false) : l.dropWhile p = l := by
  cases l with
  | nil => rfl
  | cons a l => simp [List.dropWhile_cons, h a (List.mem_cons_self a l)]

theorem stripSpaces_eq_self (l : List Char) (h : ∀ c ∈ l, isPySpace c = false) :
    stripSpaces l = l := by
  unfold stripSpaces
  rw [dropWhile_eq_self_of _ _ h,
    dropWhile_eq_self_of _ _ (fun c hc => h c (List.mem_reverse.mp hc)),
    List.reverse_reverse]

theorem filter_ne_underscore (l : List Char) (h : ∀ c ∈ l, Char.isDigit c = true) :
    l.filter (fun c => c != '_') = l := by
  refine List.filter_eq_self.mpr (fun a ha => ?_)
  have hd := h a ha
  have : a ≠ '_' := by intro e; rw [e] at hd; exact absurd hd (by decide)
  simpa using this

theorem pyIntParse_digits (l : List Char) (hne : l ≠ [])
    (h : ∀ c ∈ l, Char.isDigit c = true) : pyIntParse l = some (digitsVal l : Int) := by
  have hs : stripSpaces l = l :=
    stripSpaces_eq_self l (fun c hc => not_space_of_digit (h c hc))
  unfold pyIntParse
  rw [hs]
  cases l with
  | nil => exact absurd rfl hne
  | cons a l =>
    have ha := h a (List.mem_cons_self a l)
    have hp : a ≠ '+' := by intro e; rw [e] at ha; exact absurd ha (by decide)
    have hm : a ≠ '-' := by intro e; rw [e] at ha; exact absurd ha (by decide)
    dsimp only
    rw [if_neg hp, if_neg hm, if_pos (validDigits_digits _ (by simp) h)]
    simp [uVal, filter_ne_underscore _ h]

theorem pyInt_of_parse_some {l : List Char} {n : Int} (h : pyIntParse l = some n) :
    pyInt l = Except.ok n := by
  unfold pyInt
  rw [h]

theorem pyInt_error_iff (l : List Char) :
    (∃ e, pyInt l = Except.error e) ↔ pyIntParse l = none := by
  unfold pyInt
  cases hp : pyIntParse l <;> simp

theorem except_map_error_iff (f : Int → Int) (r : Except String Int) :
    (∃ e, Except.map f r = Except.error e) ↔ (∃ e, r = Except.error e) := by
  cases r <;> simp [Except.map]

theorem expand_size_data (l : List Char) : expand_size (String.mk l) =
    (if l.getLast? = some 'M' then
      Except.map (fun n => n * 1024 * 1024) (pyInt l.dropLast)
    else if l.getLast? = some 'K' then
      Except.map (fun n => n * 1024) (pyInt l.dropLast)
    else pyInt l) := rfl

theorem expand_size_M (s : List Char) (n : Int) (h : pyIntParse s = some n) :
    expand_size (String.mk (s ++ ['M'])) = Except.ok (n * 1048576) := by
  rw [expand_size_data, if_pos (List.getLast?_concat s), List.dropLast_concat,
    pyInt_of_parse_some h]
  show Except.ok (n * 1024 * 1024) = Except.ok (n * 1048576)
  norm_num [mul_assoc]

theorem expand_size_K (s : List Char) (n : Int) (h : pyIntParse s = some n) :
    expand_size (String.mk (s ++ ['K'])) = Except.ok (n * 1024) := by
  have hMK : (s ++ ['K']).getLast? ≠ some 'M' := by
    rw [List.getLast?_concat s]
    simp
  rw [expand_size_data, if_neg hMK, if_pos (List.getLast?_concat s), List.dropLast_concat,
    pyInt_of_parse_some h]
  rfl

theorem expand_size_digits (s : List Char) (hne : s ≠ [])
    (h : ∀ c ∈ s, Char.isDigit c = true) :
    expand_size (String.mk s) = Except.ok (digitsVal s : Int) := by
  have hM : s.getLast? ≠ some 'M' := by
    intro e
    have hmem := List.mem_of_getLast?_eq_some e
    have := h _ hmem
    exact absurd this (by decide)
  have hK : s.getLast? ≠ some 'K' := by
    intro e
    have hmem := List.mem_of_getLast?_eq_some e
    have := h _ hmem
    exact absurd this (by decide)
  rw [expand_size_data, if_neg hM, if_neg hK, pyInt_of_parse_some (pyIntParse_digits s hne h)]

/-- C1: for every size token ending in `M` (resp. `K`) whose leading portion
is a valid integer, `expand_size` returns that integer times 1,048,576
(resp. 1,024); a plain-digit token expands to its own integer value; and
`"512K"` expands to `524288`. -/
theorem expand_size_spec :
    (∀ (s : List Char) (n : Int), pyIntParse s = some n →
      expand_size (String.mk (s ++ ['M'])) = Except.ok (n * 1048576) ∧
      expand_size (String.mk (s ++ ['K'])) = Except.ok (n * 1024)) ∧
    (∀ s : List Char, s ≠ [] → (∀ c ∈ s, Char.isDigit c = true) →
      expand_size (String.mk s) = Except.ok (digitsVal s : Int)) ∧
    expand_size "512K" = Except.ok 524288 :=
  ⟨fun s n h => ⟨expand_size_M s n h, expand_size_K s n h⟩,
   expand_size_digits, rfl⟩

/-- Witness for C1 at concrete inputs: token `512M` and plain token `97`. -/
theorem expand_size_spec_witness :
    expand_size (String.mk (['5', '1', '2'] ++ ['M'])) = Except.ok (512 * 1048576) ∧
    expand_size (String.mk ['9', '7']) = Except.ok (digitsVal ['9', '7'] : Int) :=
  ⟨(expand_size_spec.1 ['5', '1', '2'] 512 (by decide)).1,
   expand_size_spec.2.1 ['9', '7'] (by decide) (by decide)⟩

/-- C10: `expand_size` recognizes only the uppercase suffixes: a lowercase
`512k` raises `ValueError`, a negative `-1M` succeeds with a negative byte
count, and it raises exactly when the token minus at most one trailing
uppercase `M`/`K` is not a valid Python integer literal. -/
theorem expand_size_suffix_spec :
    expand_size "512k" =
      Except.error "invalid literal for int() with base 10: \x27512k\x27" ∧
    expand_size "-1M" = Except.ok (-1048576) ∧
    ∀ s : String, (∃ e, expand_size s = Except.error e) ↔
      pyIntParse (stripSuffixMK s.data) = none := by
  refine ⟨rfl, rfl, fun s => ?_⟩
  unfold expand_size stripSuffixMK
  by_cases hM : s.data.getLast? = some 'M'
  · rw [if_pos hM, if_pos hM, except_map_error_iff, pyInt_error_iff]
  · rw [if_neg hM, if_neg hM]
    by_cases hK : s.data.getLast? = some 'K'
    · rw [if_pos hK, if_pos hK, except_map_error_iff, pyInt_error_iff]
    · rw [if_neg hK, if_neg hK, pyInt_error_iff]

/-! ### The throughput-parsing claims -/

theorem hasThroughputMatch_mem {l : List Char} (h : hasThroughputMatch l) :
    ' ' ∈ l ∧ '.' ∈ l := by
  obtain ⟨pre, d1, d2, post, _, _, _, _, hl⟩ := h
  subst hl
  constructor <;> simp

theorem parse_throughput_ok (out : String) (x : List Char) (xs : List (List Char))
    (hf : findall out = x :: xs) :
    parse_throughput (Except.ok out) =
      Except.ok (List.foldl max (pyFloat x) (xs.map pyFloat)) := by
  unfold parse_throughput
  dsimp only
  rw [hf]

theorem parse_throughput_nil (out : String) (hf : findall out = []) :
    parse_throughput (Except.ok out) = Except.error "No throughput found" := by
  unfold parse_throughput
  dsimp only
  rw [hf]

/-- C2: a trial raises `No throughput found` exactly when the captured output
has no substring matching the throughput pattern; otherwise it returns the
maximum of all matched readings (an upper bound of them all that is itself
one of the readings — not simply the first or last). -/
theorem run_once_max_spec :
    ∀ (ex : List String → Except String String) (cmd : List String) (n c : Int)
      (out : String), ex (run_once_cmd cmd n c) = Except.ok out →
      (run_once ex cmd n c = Except.error "No throughput found" ↔
        ¬ hasThroughputMatch out.data) ∧
      (hasThroughputMatch out.data →
        ∃ q, run_once ex cmd n c = Except.ok q ∧
          q ∈ (findall out).map pyFloat ∧ ∀ x ∈ (findall out).map pyFloat, x ≤ q) := by
  intro ex cmd n c out hex
  have hro : run_once ex cmd n c = parse_throughput (Except.ok out) := by
    unfold run_once
    rw [hex]
  constructor
  · rw [hro]
    cases hf : findall out with
    | nil =>
      rw [parse_throughput_nil out hf]
      simp [(findall_eq_nil_iff out).mp hf]
    | cons x xs =>
      rw [parse_throughput_ok out x xs hf]
      have hm : hasThroughputMatch out.data := by
        by_contra hnm
        rw [← findall_eq_nil_iff out] at hnm
        rw [hf] at hnm
        exact absurd hnm (by simp)
      simp [hm]
  · intro hm
    have hne : findall out ≠ [] := fun hf => ((findall_eq_nil_iff out).mp hf) hm
    cases hf : findall out with
    | nil => exact absurd hf hne
    | cons x xs =>
      refine ⟨List.foldl max (pyFloat x) (xs.map pyFloat), ?_, ?_, ?_⟩
      · rw [hro, parse_throughput_ok out x xs hf]
      · rw [List.map_cons]
        exact foldl_max_mem (pyFloat x) (xs.map pyFloat)
      · intro y hy
        rw [List.map_cons] at hy
        rcases List.mem_cons.mp hy with rfl | hy
        · exact le_foldl_max _ _
        · exact foldl_max_le _ _ y hy

/-- Witness for C2: output with readings 1.0, 3.0, 2.0; the returned value is
a reading and bounds all readings (so it is 3.0, neither first nor last). -/
theorem run_once_max_spec_witness :
    ∃ q, run_once exThree [] 1 1 = Except.ok q ∧
      q ∈ (findall " 1.0MiB/s 3.0MiB/s 2.0MiB/s").map pyFloat ∧
      ∀ x ∈ (findall " 1.0MiB/s 3.0MiB/s 2.0MiB/s").map pyFloat, x ≤ q :=
  (run_once_max_spec exThree [] 1 1 " 1.0MiB/s 3.0MiB/s 2.0MiB/s" rfl).2
    ⟨[], ['1'], ['0'], " 3.0MiB/s 2.0MiB/s".data, by decide, by decide, by decide, by decide,
      by decide⟩

/-- C9: a throughput figure not preceded by a space, or lacking a fractional
part, is never matched: any output without a space, or without a dot, fails
with `No throughput found`; in particular `100MiB/s` (no fraction, no space),
`12.34MiB/s` (reading at the very start) and ` 12.MiB/s` (empty fraction)
all fail. -/
theorem throughput_pattern_spec :
    (∀ out : String, (' ' ∉ out.data ∨ '.' ∉ out.data) →
      parse_throughput (Except.ok out) = Except.error "No throughput found") ∧
    parse_throughput (Except.ok "100MiB/s") = Except.error "No throughput found" ∧
    parse_throughput (Except.ok "12.34MiB/s") = Except.error "No throughput found" ∧
    parse_throughput (Except.ok " 12.MiB/s") = Except.error "No throughput found" := by
  have hgen : ∀ out : String, (' ' ∉ out.data ∨ '.' ∉ out.data) →
      parse_throughput (Except.ok out) = Except.error "No throughput found" := by
    intro out hno
    have hnm : ¬ hasThroughputMatch out.data := by
      intro hm
      have := hasThroughputMatch_mem hm
      rcases hno with hno | hno
      · exact hno this.1
      · exact hno this.2
    exact parse_throughput_nil out ((findall_eq_nil_iff out).mpr hnm)
  exact ⟨hgen, hgen _ (Or.inl (by decide)), hgen _ (Or.inl (by decide)),
    parse_throughput_nil _ (by decide)⟩

/-- Witness for C9 at the concrete no-space output `A5B`. -/
theorem throughput_pattern_spec_witness :
    parse_throughput (Except.ok "A5B") = Except.error "No throughput found" :=
  throughput_pattern_spec.1 "A5B" (Or.inl (by decide))

/-! ### Sweep-level lemmas -/

theorem flatMap_congr_mem {α β : Type} (l : List α) (f g : α → List β)
    (h : ∀ a ∈ l, f a = g a) : l.flatMap f = l.flatMap g := by
  induction l with
  | nil => rfl
  | cons a l ih =>
    rw [List.flatMap_cons, List.flatMap_cons, h a (List.mem_cons_self a l),
      ih (fun b hb => h b (List.mem_cons_of_mem _ hb))]

theorem product_flatMap (ps : List String) (cs : List Int) (f : String → Int → List Out) :
    ((ps.product cs).flatMap fun p => f p.1 p.2) =
      ps.flatMap (fun t => cs.flatMap fun c => f t c) := by
  induction ps with
  | nil => rfl
  | cons t ps ih =>
    have hp : (t :: ps).product cs = cs.map (fun c => (t, c)) ++ ps.product cs :=
      List.product_cons t ps cs
    rw [hp, List.flatMap_append, List.flatMap_map, List.flatMap_cons, ih]

theorem trial_no_header (ex : List String → Except String String) (cmd : List String)
    (t : String) (c : Int) : ∀ ev ∈ trial ex cmd t c, ev ≠ Out.header := by
  intro ev hev
  unfold trial at hev
  rcases List.mem_cons.mp hev with rfl | hev
  · intro h; exact absurd h (by simp)
  · cases h : trialResult ex cmd t c with
    | ok q => rw [h] at hev; simp at hev; rw [hev]; simp
    | error e => rw [h] at hev; simp at hev; rw [hev]; simp

theorem run_sweep_some_fst (ex : List String → Except String String)
    (ps : List String) (cs : List Int) (cmd : List String) :
    run_sweep ex (some ps) (some cs) cmd =
      (Out.header :: ps.flatMap (fun t => cs.flatMap (fun c => trial ex cmd t c)), none) :=
  rfl

/-! ### Sweep-level claims -/

/-- C3: every per-trial failure (process error or no throughput) is caught at
the trial boundary: the sweep carries no unhandled error, a failing trial's
row is the original token and connection count followed by `failed (…)`, and
the events of every trial of the grid appear in the sweep's output. -/
theorem run_sweep_failure_spec :
    ∀ (ex : List String → Except String String) (cmd : List String) (ps : List String)
      (cs : List Int),
      (run_sweep ex (some ps) (some cs) cmd).2 = none ∧
      (∀ (t : String) (c : Int) (e : String), trialResult ex cmd t c = Except.error e →
        trial ex cmd t c = [Out.trialStart t c, Out.failed e] ∧
        ∀ floatStr : ℚ → String, (trial ex cmd t c).map (render floatStr) =
          [t ++ "\t" ++ toString c ++ "\t", "failed (" ++ e ++ ")\n"]) ∧
      (∀ t ∈ ps, ∀ c ∈ cs, ∀ ev ∈ trial ex cmd t c,
        ev ∈ (run_sweep ex (some ps) (some cs) cmd).1) := by
  intro ex cmd ps cs
  refine ⟨rfl, ?_, ?_⟩
  · intro t c e he
    have ht : trial ex cmd t c = [Out.trialStart t c, Out.failed e] := by
      unfold trial
      rw [he]
    exact ⟨ht, fun floatStr => by rw [ht]; rfl⟩
  · intro t ht c hc ev hev
    rw [run_sweep_some_fst]
    exact List.mem_cons_of_mem _
      (List.mem_flatMap.mpr ⟨t, ht, List.mem_flatMap.mpr ⟨c, hc, hev⟩⟩)

/-- Witness for C3: a runner that always fails yields a `failed (boom)` row. -/
theorem run_sweep_failure_spec_witness :
    trial exBoom ["p"] "1M" 7 = [Out.trialStart "1M" 7, Out.failed "boom"] :=
  ((run_sweep_failure_spec exBoom ["p"] ["1M"] [7]).2.1 "1M" 7 "boom" rfl).1

/-- C4 counterexample: a sweep over tokens `bad` then `1M` — the Parse Error
from the malformed token is caught at the per-trial boundary (the sweep's
unhandled-error slot is `none`), the row is reported `failed (…)`, and the
subsequent trial still runs; the claim's "surfaces as an unhandled failure"
is false here. -/
theorem parse_error_caught_counterexample :
    run_sweep exOne (some ["bad", "1M"]) (some [10]) ["p"] =
      ([Out.header, Out.trialStart "bad" 10,
        Out.failed "invalid literal for int() with base 10: \x27bad\x27",
        Out.trialStart "1M" 10, Out.success 1], none) := by
  have h1 : pyFloat ['1', '.', '0', '0'] = 1 := by
    rw [show pyFloat ['1', '.', '0', '0'] = ((1 : ℕ) : ℚ) + ((0 : ℕ) : ℚ) / (10 : ℚ) ^ 2
      from rfl]
    norm_num
  calc run_sweep exOne (some ["bad", "1M"]) (some [10]) ["p"]
      = ([Out.header, Out.trialStart "bad" 10,
          Out.failed "invalid literal for int() with base 10: \x27bad\x27",
          Out.trialStart "1M" 10, Out.success (pyFloat ['1', '.', '0', '0'])], none) := rfl
    _ = ([Out.header, Out.trialStart "bad" 10,
          Out.failed "invalid literal for int() with base 10: \x27bad\x27",
          Out.trialStart "1M" 10, Out.success 1], none) := by rw [h1]

/-- C4 amended: a malformed size token's Parse Error is raised on each use of
the token, caught at the per-trial boundary like any other trial failure and
reported as a `failed (…)` row, and the sweep never carries an unhandled
error. -/
theorem parse_error_caught_spec :
    ∀ (ex : List String → Except String String) (cmd : List String) (t : String)
      (e : String), expand_size t = Except.error e →
      (∀ c : Int, trial ex cmd t c = [Out.trialStart t c, Out.failed e]) ∧
      ∀ (ps : List String) (cs : List Int),
        (run_sweep ex (some ps) (some cs) cmd).2 = none := by
  intro ex cmd t e he
  refine ⟨fun c => ?_, fun ps cs => rfl⟩
  unfold trial trialResult
  rw [he]
  rfl

/-- Witness for C4 at the malformed token `bad`. -/
theorem parse_error_caught_spec_witness :
    trial exOne ["p"] "bad" 10 =
      [Out.trialStart "bad" 10,
       Out.failed "invalid literal for int() with base 10: \x27bad\x27"] :=
  (parse_error_caught_spec exOne ["p"] "bad" _ rfl).1 10

/-- C5 counterexample: invoking with the separator present but `--part-size`
omitted (argparse stores `None`): an unhandled error still escapes, refuting
"exits non-zero via an unhandled error only if the separator is missing". -/
theorem exit_behavior_counterexample :
    (sweep_main exOne none none ["--", "prog"]).2.isSome = true ∧
    (["--", "prog"] : List String).head? = some "--" := by
  exact ⟨rfl, rfl⟩

/-- C5 amended: an unhandled error escapes iff the separator is missing or a
required multi-valued option was omitted (an omitted connection list only
errors once the inner loop is reached, i.e. when the part-size list is
nonempty); with both options and the separator present, no error escapes. -/
theorem exit_behavior_spec :
    ∀ (ex : List String → Except String String) (ps? : Option (List String))
      (cs? : Option (List Int)) (cmd : List String),
      (sweep_main ex ps? cs? cmd).2 = none ↔
        (cmd.head? = some "--" ∧ ps?.isSome = true ∧
          (cs?.isSome = true ∨ ps? = some [])) := by
  intro ex ps? cs? cmd
  cases cmd with
  | nil => simp [sweep_main]
  | cons c0 rest =>
    by_cases hc : c0 = "--"
    · subst hc
      cases ps? with
      | none => simp [sweep_main, run_sweep, noneTypeErr]
      | some ps =>
        cases cs? with
        | none =>
          by_cases hps : ps = []
          · subst hps
            simp [sweep_main, run_sweep]
          · simp [sweep_main, run_sweep, hps, noneTypeErr]
        | some cs => simp [sweep_main, run_sweep]
    · simp [sweep_main, hc]

/-- Witness for C5 at a concrete full invocation. -/
theorem exit_behavior_spec_witness :
    (sweep_main exOne (some ["1M"]) (some [7]) ["--", "prog"]).2 = none :=
  (exit_behavior_spec exOne (some ["1M"]) (some [7]) ["--", "prog"]).mpr
    ⟨rfl, rfl, Or.inl rfl⟩

/-- C6: each trial's command is the template with exactly the two flag/value
pairs appended last, `--part-size` (with the expanded byte count, e.g.
`524288` for token `512K`, not the token) before `--connections-per-vip`. -/
theorem run_once_cmd_spec :
    ∀ (ex : List String → Except String String) (cmd : List String) (n c : Int),
      run_once ex cmd n c = parse_throughput (ex (cmd ++
        ["--part-size", toString n, "--connections-per-vip", toString c])) ∧
      (run_once_cmd cmd n c).take cmd.length = cmd ∧
      (run_once_cmd cmd n c).drop cmd.length =
        ["--part-size", toString n, "--connections-per-vip", toString c] ∧
      expand_size "512K" = Except.ok 524288 ∧
      toString (524288 : Int) = "524288" ∧ ("524288" : String) ≠ "512K" := by
  intro ex cmd n c
  refine ⟨rfl, List.take_left cmd _, List.drop_left cmd _, rfl, rfl, by decide⟩

/-- C7: the sweep's output is the header followed by the trials of the
Cartesian product, outer loop over part sizes in order, inner loop over
connection counts in order; the header occurs exactly once, at the front. -/
theorem run_sweep_order_spec :
    ∀ (ex : List String → Except String String) (cmd : List String) (ps : List String)
      (cs : List Int),
      (run_sweep ex (some ps) (some cs) cmd).1 =
        Out.header :: ((ps.product cs).flatMap fun p => trial ex cmd p.1 p.2) ∧
      ((run_sweep ex (some ps) (some cs) cmd).1).count Out.header = 1 := by
  intro ex cmd ps cs
  have hfst : (run_sweep ex (some ps) (some cs) cmd).1 =
      Out.header :: ps.flatMap (fun t => cs.flatMap (fun c => trial ex cmd t c)) := by
    rw [run_sweep_some_fst]
  constructor
  · rw [hfst, product_flatMap ps cs (fun t c => trial ex cmd t c)]
  · rw [hfst, List.count_cons_self]
    have hz : (ps.flatMap (fun t => cs.flatMap (fun c => trial ex cmd t c))).count
        Out.header = 0 := by
      rw [List.count_eq_zero]
      intro hmem
      obtain ⟨t, ht, hmem⟩ := List.mem_flatMap.mp hmem
      obtain ⟨c, hc, hmem⟩ := List.mem_flatMap.mp hmem
      exact trial_no_header ex cmd t c _ hmem rfl
    rw [hz]

/-- C8: the sweep consults the process runner only on per-trial commands that
are freshly built from the unchanged template plus that trial's own two
flag/value pairs — two runners agreeing on those commands produce identical
sweeps, and every such command is the template (still a prefix) plus exactly
four tokens. -/
theorem run_sweep_fresh_cmd_spec :
    (∀ (ex ex2 : List String → Except String String) (ps : List String) (cs : List Int)
      (cmd : List String),
      (∀ l ∈ run_sweep_calls ps cs cmd, ex l = ex2 l) →
      run_sweep ex (some ps) (some cs) cmd = run_sweep ex2 (some ps) (some cs) cmd) ∧
    (∀ (ps : List String) (cs : List Int) (cmd : List String),
      ∀ l ∈ run_sweep_calls ps cs cmd,
        l.take cmd.length = cmd ∧ l.length = cmd.length + 4) := by
  constructor
  · intro ex ex2 ps cs cmd hagree
    have htrial : ∀ t ∈ ps, ∀ c ∈ cs, trial ex cmd t c = trial ex2 cmd t c := by
      intro t ht c hc
      unfold trial trialResult
      cases hexp : expand_size t with
      | error e => rfl
      | ok n =>
        have hmem : run_once_cmd cmd n c ∈ run_sweep_calls ps cs cmd := by
          unfold run_sweep_calls
          refine List.mem_flatMap.mpr ⟨t, ht, List.mem_flatMap.mpr ⟨c, hc, ?_⟩⟩
          rw [hexp]
          exact List.mem_singleton.mpr rfl
        have hx : ex (run_once_cmd cmd n c) = ex2 (run_once_cmd cmd n c) := hagree _ hmem
        simp only [Except.bind, run_once, hx]
    rw [run_sweep_some_fst, run_sweep_some_fst]
    rw [flatMap_congr_mem ps _ _ (fun t ht =>
      flatMap_congr_mem cs _ _ (fun c hc => htrial t ht c hc))]
  · intro ps cs cmd l hl
    unfold run_sweep_calls at hl
    obtain ⟨t, _, hl⟩ := List.mem_flatMap.mp hl
    obtain ⟨c, _, hl⟩ := List.mem_flatMap.mp hl
    cases hexp : expand_size t with
    | error e => rw [hexp] at hl; simp at hl
    | ok n =>
      rw [hexp] at hl
      have : l = run_once_cmd cmd n c := List.mem_singleton.mp hl
      subst this
      exact ⟨List.take_left cmd _, by simp [run_once_cmd]⟩

/-- Witness for C8: two runners that differ outside the trial commands but
agree on them yield the same sweep. -/
theorem run_sweep_fresh_cmd_spec_witness :
    run_sweep exA (some ["1M"]) (some [7]) ["p"] =
      run_sweep exB (some ["1M"]) (some [7]) ["p"] :=
  run_sweep_fresh_cmd_spec.1 exA exB ["1M"] [7] ["p"] (by
    intro l hl
    rw [show run_sweep_calls ["1M"] [7] ["p"] =
      [["p", "--part-size", "1048576", "--connections-per-vip", "7"]] from by decide] at hl
    rw [List.mem_singleton.mp hl]
    rfl)

/-- Witness for C6 at a concrete template and trial. -/
theorem run_once_cmd_spec_witness :
    (run_once_cmd ["p"] 524288 7).drop (["p"] : List String).length =
      ["--part-size", toString (524288 : Int), "--connections-per-vip", toString (7 : Int)] :=
  (run_once_cmd_spec exOne ["p"] 524288 7).2.2.1

/-- Witness for C7 at a concrete sweep. -/
theorem run_sweep_order_spec_witness :
    ((run_sweep exOne (some ["1M"]) (some [7]) ["p"]).1).count Out.header = 1 :=
  (run_sweep_order_spec exOne ["p"] ["1M"] [7]).2

/-- Witness for C10 at the concrete non-numeric token `xx`. -/
theorem expand_size_suffix_spec_witness :
    ∃ e, expand_size "xx" = Except.error e :=
  (expand_size_suffix_spec.2.2 "xx").mpr (by decide)
